import Mathlib

/-!
Verification development for the DataRobot time-series modeling walkthrough
(`02_Time_Series_Modeling.ipynb`).  The notebook's own logic (best-model
selection over the leaderboard, the known-in-advance feature settings and the
datetime partitioning specification) is embedded directly from the source
cells.  The asynchronous job tracker, local partitioning validation and
prediction-result materialization live in the external `datarobot` library,
which is not part of this repository's sources; those parts are modelled from
the specification and are marked as such in their doc comments.
-/

namespace DR
/-! ## Model selection (notebook cell 17)

The source:
```python
lb = proj.get_models()
valid_models = [m for m in lb if
                m.metrics[proj.metric]['crossValidation']]
best_model = min(valid_models,
                 key=lambda m: m.metrics[proj.metric]['crossValidation'])
```
-/

/-- A leaderboard entry.  `crossValidation` embeds the single slot the
notebook reads, `m.metrics[proj.metric]['crossValidation']`: the
cross-validation score for the project's metric, `none` when the server has
not computed it (Python `None`).  Scores are modelled as rationals. -/
structure ModelHandle where
  id : String
  crossValidation : Option ℚ
  deriving DecidableEq, Repr

/-- Python truthiness of `m.metrics[proj.metric]['crossValidation']` as used
by the list-comprehension condition: `None` is falsy and a numeric `0.0` is
also falsy; any other number is truthy. -/
def cvTruthy (m : ModelHandle) : Bool :=
  match m.crossValidation with
  | none => false
  | some x => x ≠ 0

/-- The `key` function of the `min` call.  On the filtered list the slot is
always `some`; `getD 0` is only a total-function rendering of the access. -/
def cvKey (m : ModelHandle) : ℚ := m.crossValidation.getD 0

/-- One comparison step of CPython's `min(iterable, key=...)`: the running
best is replaced only when a strictly smaller key appears, so the first
occurrence of the minimal key wins. -/
def minStep {α : Type} (key : α → ℚ) (best x : α) : α :=
  if key x < key best then x else best

/-- CPython's `min(iterable, key=...)`: `none` on the empty list (where the
real `min` raises `ValueError`), otherwise the first element attaining the
minimal key. -/
def minByKey {α : Type} (key : α → ℚ) : List α → Option α
  | [] => none
  | a :: l => some (l.foldl (minStep key) a)

/-- `valid_models = [m for m in lb if m.metrics[proj.metric]['crossValidation']]` -/
def valid_models (lb : List ModelHandle) : List ModelHandle :=
  lb.filter cvTruthy

/-- `best_model = min(valid_models, key=...)`; `none` stands for the
`ValueError` raised by `min` on an empty sequence, the spec's
`NoEligibleModel` condition. -/
def best_model (lb : List ModelHandle) : Option ModelHandle :=
  minByKey cvKey (valid_models lb)

/-! ## Time-series partitioning (notebook cells 10 and 12)

The source:
```python
known_in_advance = ['Marketing', 'Near_Xmas', 'Near_BlackFriday',
                    'Holiday', 'DestinationEvent']
feature_settings = [dr.FeatureSettings(feat_name,
                                       known_in_advance=True)
                    for feat_name in known_in_advance]

time_partition = dr.DatetimePartitioningSpecification(
    datetime_partition_column='Date',
    multiseries_id_columns=['Store'],
    use_time_series=True,
    feature_settings=feature_settings,
)
```
-/

/-- A `dr.FeatureSettings(feature_name, known_in_advance=...)` value. -/
structure FeatureSettings where
  feature_name : String
  known_in_advance : Bool
  deriving DecidableEq, Repr

/-- The five known-in-advance column names of cell 10. -/
def known_in_advance : List String :=
  ["Marketing", "Near_Xmas", "Near_BlackFriday", "Holiday", "DestinationEvent"]

/-- The list comprehension of cell 10: one `FeatureSettings` per name, each
with `known_in_advance=True`. -/
def feature_settings : List FeatureSettings :=
  known_in_advance.map (fun feat_name => FeatureSettings.mk feat_name true)

/-- The shape of `dr.DatetimePartitioningSpecification` as used in cell 12
(the spec's `PartitioningSpec`). -/
structure DatetimePartitioningSpecification where
  datetime_partition_column : String
  multiseries_id_columns : List String
  use_time_series : Bool
  feature_settings : List FeatureSettings
  deriving DecidableEq, Repr

/-- The `time_partition` value of cell 12. -/
def time_partition : DatetimePartitioningSpecification :=
  { datetime_partition_column := "Date"
    multiseries_id_columns := ["Store"]
    use_time_series := true
    feature_settings := feature_settings }

/-! ## Local validation of a partitioning specification -/

/-- The failure kinds of local partitioning validation named by the spec. -/
inductive ValidationError where
  | missingColumn (name : String)
  | conflictingFlags
  deriving DecidableEq, Repr

/-- A request sent to the remote service by the training-submission path. -/
inductive ApiRequest where
  | startTraining
  deriving DecidableEq, Repr

/-- Modelled from the spec: the local validation the `datarobot` library
performs on a `DatetimePartitioningSpecification` (the library itself is not
part of this repository's sources; only the call in cell 12 is).  Per the
spec, the checks are that every feature referenced in a `FeatureSetting`
exists in the dataset schema, and that `known_in_advance` is not set without
`use_time_series`. -/
def validateSpec (schema : List String) (s : DatetimePartitioningSpecification) :
    Option ValidationError :=
  match s.feature_settings.find? (fun fs => !(schema.contains fs.feature_name)) with
  | some fs => some (ValidationError.missingColumn fs.feature_name)
  | none =>
    if (s.feature_settings.any (fun fs => fs.known_in_advance)) && !s.use_time_series then
      some ValidationError.conflictingFlags
    else none

/-- Modelled from the spec: submission of the training request ("set target")
carrying the partitioning specification.  Validation runs first; on failure
the error is reported and NO request is issued; on success exactly the
training request goes out.  The second component is the list of network
requests issued. -/
def submitPartitioning (schema : List String)
    (s : DatetimePartitioningSpecification) :
    Option ValidationError × List ApiRequest :=
  match validateSpec schema s with
  | some e => (some e, [])
  | none => (none, [ApiRequest.startTraining])

/-! ## The asynchronous job tracker

The notebook blocks on `proj.wait_for_autopilot()` (cell 14, whose polling
cadence appears in the transcript) and `pred_job.get_result_when_complete()`
(cell 20).  The polling loop itself lives in the `datarobot` library, outside
this repository's sources, so it is modelled from the specification below. -/

/-- A remote job status as reported by one status poll: `running` carries the
observational sub-task counts (in progress, queued). -/
inductive JobStatus where
  | running (inProgress queued : Nat)
  | completed
  | failed
  deriving DecidableEq, Repr

/-- Outcome of `awaitCompletion`: terminal success, terminal server-reported
failure, the `AwaitTimeout`/`EXPIRED` deadline outcome, or `pending` — an
artifact of bounding the loop by fuel, returned only when the fuel runs out
before the loop decides. -/
inductive AwaitResult where
  | done
  | jobFailed
  | timeout
  | pending
  deriving DecidableEq, Repr

/-- A request the tracker can address to the remote service.  `cancelJob` is
in the vocabulary precisely so that "no cancellation is ever issued" is a
statement about the request trace, not about a missing constructor. -/
inductive Req where
  | statusPoll
  | cancelJob
  deriving DecidableEq, Repr

/-- Modelled from the spec: the tracker's sleep-interval schedule (the
`datarobot` library's wait loop is not in this repository's sources).  The
spec: "The sleep interval starts small and grows monotonically up to a cap
... interval sequence approximating 1,1,1,1,2,3,5,8,... capped at a fixed
maximum (the transcript's observed cadence: sub-second growth to ~20s steady
state)". -/
def fibInterval : Nat → Nat
  | 0 => 1
  | 1 => 1
  | n + 2 => fibInterval n + fibInterval (n + 1)

/-- The fixed cap on the sleep interval: the transcript's ~20s steady
state. -/
def intervalCap : Nat := 20

/-- The `n`-th inter-poll sleep interval: the growing sequence truncated at
the cap. -/
def pollInterval (n : Nat) : Nat := min (fibInterval n) intervalCap

/-- Tracker bookkeeping, threaded through the poll loop.  `cbState` is the
progress callback's private accumulator; everything the transition logic may
consult lives in the other fields. -/
structure TrackSt (σ : Type) where
  polls : Nat
  elapsed : Nat
  sleeps : List Nat
  requests : List Req
  cbState : σ
  deriving Repr

/-- The transition-relevant projection of a tracker state: everything except
the callback accumulator. -/
def obsSt {σ : Type} (st : TrackSt σ) : Nat × Nat × List Nat × List Req :=
  (st.polls, st.elapsed, st.sleeps, st.requests)

/-- The observable outcome of an await: result plus the transition-relevant
state projection. -/
def obs {σ : Type} (r : AwaitResult × TrackSt σ) :
    AwaitResult × Nat × Nat × List Nat × List Req :=
  (r.1, r.2.polls, r.2.elapsed, r.2.sleeps, r.2.requests)

/-- Modelled from the spec: the poll loop of `awaitCompletion` (the
`datarobot` library's implementation is not in this repository's sources).
`job` maps elapsed seconds to the remote status.  Each iteration first
enforces the deadline ("if elapsed time exceeds `maxWait` before a terminal
state is reached, the operation fails with an `EXPIRED`/timeout kind"), then
issues one status poll; a terminal status exits the loop; a running status
reports its sub-task counts to `onProgress` — which only updates its own
accumulator — then the tracker sleeps for the next scheduled interval and
repeats.  Recursion is bounded by `fuel`, the maximal number of loop
iterations. -/
def awaitLoop {σ : Type} (job : Nat → JobStatus) (maxWait : Nat)
    (onProgress : Nat → Nat → Nat → σ → σ) :
    Nat → TrackSt σ → AwaitResult × TrackSt σ
  | 0, st => (AwaitResult.pending, st)
  | fuel + 1, st =>
    if maxWait < st.elapsed then (AwaitResult.timeout, st)
    else
      let st1 : TrackSt σ :=
        { st with polls := st.polls + 1, requests := st.requests ++ [Req.statusPoll] }
      match job st.elapsed with
      | JobStatus.completed => (AwaitResult.done, st1)
      | JobStatus.failed => (AwaitResult.jobFailed, st1)
      | JobStatus.running p q =>
        let st2 : TrackSt σ := { st1 with cbState := onProgress p q st1.elapsed st1.cbState }
        let d := pollInterval st2.sleeps.length
        awaitLoop job maxWait onProgress fuel
          { st2 with elapsed := st2.elapsed + d, sleeps := st2.sleeps ++ [d] }

/-- Modelled from the spec: `awaitCompletion(job, maxWait, onProgress)`,
started from a fresh tracker state with the callback accumulator `s0`. -/
def awaitCompletion {σ : Type} (job : Nat → JobStatus) (maxWait : Nat)
    (onProgress : Nat → Nat → Nat → σ → σ) (fuel : Nat) (s0 : σ) :
    AwaitResult × TrackSt σ :=
  awaitLoop job maxWait onProgress fuel (TrackSt.mk 0 0 [] [] s0)

/-- The simulated status sequence of C6 as a function of elapsed time: under
the schedule the four polls happen at elapsed times 0, 1, 2 and 4, observing
RUNNING(19,0), RUNNING(19,0), RUNNING(17,0), COMPLETED. -/
def jobC6 : Nat → JobStatus := fun t =>
  if t < 2 then JobStatus.running 19 0
  else if t < 4 then JobStatus.running 17 0
  else JobStatus.completed

/-- A progress callback that records each `(inProgress, queued, elapsed)`
report, as the transcript's `In progress: …, queued: … (waited: …s)` lines
do. -/
def recordProgress : Nat → Nat → Nat → List (Nat × Nat × Nat) →
    List (Nat × Nat × Nat) :=
  fun p q e l => l ++ [(p, q, e)]

/-- A progress callback that ignores its reports. -/
def noProgress : Nat → Nat → Nat → Unit → Unit := fun _ _ _ u => u

/-- A job that never completes: always RUNNING. -/
def jobNever : Nat → JobStatus := fun _ => JobStatus.running 1 0

/-- A job that runs for 5 seconds of elapsed time and is COMPLETED from then
on. -/
def jobShort : Nat → JobStatus := fun t =>
  if t < 5 then JobStatus.running 1 0 else JobStatus.completed

/-- A sleep list aligned with the tracker's schedule: its `n`-th entry is
`pollInterval n`. -/
def schedAligned (l : List Nat) : Prop :=
  l = (List.range l.length).map pollInterval

/-! ## Prediction rows (notebook cells 20 and 22)

The notebook requests predictions from the chosen model and materializes the
completed job's result; the transcript of `preds.head()` shows rows with
`forecast_point` 2014-06-14, `forecast_distance` 1..5 and `timestamp`
2014-06-15 .. 2014-06-19 for series `Louisville`, `row_id` 714..718. -/

/-- Days since 0000-03-01 of a proleptic Gregorian calendar date, so that a
one-day period is the number 1 and consecutive calendar days map to
consecutive numbers (standard civil-calendar day-count algorithm, restricted
to the positive years the notebook uses). -/
def daysFromCivil (y m d : Nat) : Nat :=
  let yAdj := if m ≤ 2 then y - 1 else y
  let era := yAdj / 400
  let yoe := yAdj - era * 400
  let mp := (m + 9) % 12
  let doy := (153 * mp + 2) / 5 + d - 1
  let doe := yoe * 365 + yoe / 4 - yoe / 100 + doy
  era * 146097 + doe

/-- A prediction result row; timestamps and forecast points are day
numbers. -/
structure PredictionRow where
  forecast_distance : Nat
  forecast_point : Nat
  prediction : ℚ
  row_id : Nat
  series_id : String
  timestamp : Nat
  deriving DecidableEq, Repr

/-- Modelled from the spec: materialization of a completed predictions job's
result rows for one series (the `datarobot` library's
`get_result_when_complete` is not in this repository's sources).  Per the
spec, each row's `forecast_distance` is an integer ≥ 1 counting periods past
the forecast point, and `timestamp` is "the actual predicted instant =
forecast_point + forecast_distance periods"; rows arrive in server order,
here distance 1, 2, ... as in the transcript. -/
def materializeForecast (fp period : Nat) (series : String) (rowStart : Nat)
    (preds : List ℚ) : List PredictionRow :=
  ((List.range preds.length).zip preds).map fun ip =>
    { forecast_distance := ip.1 + 1
      forecast_point := fp
      prediction := ip.2
      row_id := rowStart + ip.1
      series_id := series
      timestamp := fp + (ip.1 + 1) * period }

/-- The five predictions shown by `preds.head()` in cell 22, as exact
rationals. -/
def transcriptPreds : List ℚ :=
  [mkRat 149958276039 1000000, mkRat 131777576752 1000000,
   mkRat 136007089278 1000000, mkRat 135969901475 1000000,
   mkRat 137532712686 1000000]

/-- The first row of the transcript's result set, written out explicitly. -/
def transcriptHeadRow : PredictionRow :=
  { forecast_distance := 1
    forecast_point := daysFromCivil 2014 6 14
    prediction := mkRat 149958276039 1000000
    row_id := 714
    series_id := "Louisville"
    timestamp := daysFromCivil 2014 6 15 }

/-! ### Generic facts about `minByKey` -/

theorem foldl_minStep_mem {α : Type} (key : α → ℚ) :
    ∀ (l : List α) (acc : α),
      l.foldl (minStep key) acc = acc ∨ l.foldl (minStep key) acc ∈ l := by
  intro l
  induction l with
  | nil => intro acc; exact Or.inl rfl
  | cons x l ih =>
    intro acc
    have h := ih (minStep key acc x)
    rcases h with h | h
    · rw [List.foldl_cons, h]
      by_cases hx : key x < key acc
      · right; simp [minStep, hx]
      · left; simp [minStep, hx]
    · right
      rw [List.foldl_cons]
      exact List.mem_cons_of_mem x h

theorem foldl_minStep_le_acc {α : Type} (key : α → ℚ) :
    ∀ (l : List α) (acc : α), key (l.foldl (minStep key) acc) ≤ key acc := by
  intro l
  induction l with
  | nil => intro acc; exact le_refl _
  | cons x l ih =>
    intro acc
    rw [List.foldl_cons]
    refine le_trans (ih (minStep key acc x)) ?_
    by_cases hx : key x < key acc
    · simp [minStep, hx]; exact le_of_lt hx
    · simp [minStep, hx]

theorem foldl_minStep_le_mem {α : Type} (key : α → ℚ) :
    ∀ (l : List α) (acc : α) (x : α), x ∈ l →
      key (l.foldl (minStep key) acc) ≤ key x := by
  intro l
  induction l with
  | nil => intro acc x hx; exact absurd hx (List.not_mem_nil x)
  | cons y l ih =>
    intro acc x hx
    rw [List.foldl_cons]
    rcases List.mem_cons.mp hx with h | h
    · subst h
      refine le_trans (foldl_minStep_le_acc key l (minStep key acc x)) ?_
      by_cases hx' : key x < key acc
      · simp [minStep, hx']
      · simp [minStep, hx']; exact le_of_not_lt hx'
    · exact ih (minStep key acc y) x h

theorem foldl_minStep_stable {α : Type} (key : α → ℚ) :
    ∀ (l : List α) (acc : α), (∀ x ∈ l, key acc ≤ key x) →
      l.foldl (minStep key) acc = acc := by
  intro l
  induction l with
  | nil => intro acc _; rfl
  | cons x l ih =>
    intro acc h
    rw [List.foldl_cons]
    have hx : ¬ key x < key acc := not_lt_of_le (h x (List.mem_cons_self x l))
    have hstep : minStep key acc x = acc := by simp [minStep, hx]
    rw [hstep]
    exact ih acc (fun y hy => h y (List.mem_cons_of_mem x hy))

theorem minByKey_spec {α : Type} (key : α → ℚ) (l : List α) (m : α)
    (h : minByKey key l = some m) :
    m ∈ l ∧ ∀ y ∈ l, key m ≤ key y := by
  cases l with
  | nil => simp [minByKey] at h
  | cons a l =>
    simp only [minByKey, Option.some.injEq] at h
    subst h
    constructor
    · rcases foldl_minStep_mem key l a with h | h
      · rw [h]; exact List.mem_cons_self a l
      · exact List.mem_cons_of_mem a h
    · intro y hy
      rcases List.mem_cons.mp hy with h | h
      · rw [h]; exact foldl_minStep_le_acc key l a
      · exact foldl_minStep_le_mem key l a y h

/-- `minByKey` is stable: if the list splits as `l₁ ++ m :: l₂` where `m`'s
key is strictly below every key in `l₁` and at most every key in `l₂`, the
first minimal element `m` is returned. -/
theorem minByKey_first_min {α : Type} (key : α → ℚ) (l₁ l₂ : List α) (m : α)
    (h₁ : ∀ x ∈ l₁, key m < key x) (h₂ : ∀ x ∈ l₂, key m ≤ key x) :
    minByKey key (l₁ ++ m :: l₂) = some m := by
  cases l₁ with
  | nil =>
    simp only [List.nil_append, minByKey, Option.some.injEq]
    exact foldl_minStep_stable key l₂ m h₂
  | cons a l₁ =>
    simp only [List.cons_append, minByKey, Option.some.injEq]
    rw [List.foldl_append]
    set b := l₁.foldl (minStep key) a with hb
    have hbmem : b = a ∨ b ∈ l₁ := foldl_minStep_mem key l₁ a
    have hbgt : key m < key b := by
      rcases hbmem with h | h
      · rw [h]; exact h₁ a (List.mem_cons_self a l₁)
      · exact h₁ b (List.mem_cons_of_mem a h)
    rw [List.foldl_cons]
    have hstep : minStep key b m = m := by simp [minStep, hbgt]
    rw [hstep]
    exact foldl_minStep_stable key l₂ m h₂

theorem valid_models_of_truthy (lb : List ModelHandle) (m : ModelHandle)
    (x : ℚ) (hm : m ∈ lb) (hx : m.crossValidation = some x) (hx0 : x ≠ 0) :
    m ∈ valid_models lb := by
  refine List.mem_filter.mpr ⟨hm, ?_⟩
  simp [cvTruthy, hx, hx0]

theorem valid_models_nil (lb : List ModelHandle)
    (h : ∀ m ∈ lb, m.crossValidation = none) : valid_models lb = [] := by
  refine List.filter_eq_nil_iff.mpr ?_
  intro m hm
  simp [cvTruthy, h m hm]

/-- C1, counterexample: a model whose cross-validation score is present but
equal to 0 IS excluded from comparison — the Python condition
`if m.metrics[proj.metric]['crossValidation']` tests truthiness, and `0.0` is
falsy, so over the one-model leaderboard with a present score of 0 the
selection fails (`min` over an empty sequence) instead of returning that
model. -/
theorem C1_counterexample_zero_score_excluded :
    (ModelHandle.mk "A" (some 0)).crossValidation.isSome = true ∧
    best_model [ModelHandle.mk "A" (some 0)] = none := by decide

/-- C1 (amended): best-model selection restricts to the models whose
cross-validation entry is truthy — present AND nonzero — then returns the one
with the minimal score.  Over `[A ↦ 0.5, B ↦ absent, C ↦ 0.3]` it returns
`C`; a model with a present nonzero score is never excluded from comparison
(a present score of exactly 0 is excluded by the truthiness test, like an
absent one); and any returned model belongs to the filtered list and has the
minimal score over it. -/
theorem C1_best_model_truthy_filter_then_min :
    best_model [ModelHandle.mk "A" (some (mkRat 5 10)), ModelHandle.mk "B" none,
        ModelHandle.mk "C" (some (mkRat 3 10))] =
      some (ModelHandle.mk "C" (some (mkRat 3 10))) ∧
    (∀ (lb : List ModelHandle) (m : ModelHandle) (x : ℚ),
      m ∈ lb → m.crossValidation = some x → x ≠ 0 → m ∈ valid_models lb) ∧
    (∀ (lb : List ModelHandle) (m : ModelHandle), best_model lb = some m →
      m ∈ valid_models lb ∧ ∀ y ∈ valid_models lb, cvKey m ≤ cvKey y) := by
  refine ⟨by decide, valid_models_of_truthy, ?_⟩
  intro lb m h
  exact minByKey_spec cvKey (valid_models lb) m h

/-- Witness for the amended C1, at concrete inputs: a one-model leaderboard
with present nonzero score 2 keeps that model in the filtered list, and the
model returned over it is a minimal member of the filtered list. -/
theorem C1_witness :
    (ModelHandle.mk "A" (some 2) ∈ valid_models [ModelHandle.mk "A" (some 2)]) ∧
    (ModelHandle.mk "A" (some 2) ∈ valid_models [ModelHandle.mk "A" (some 2)] ∧
      ∀ y ∈ valid_models [ModelHandle.mk "A" (some 2)],
        cvKey (ModelHandle.mk "A" (some 2)) ≤ cvKey y) := by
  constructor
  · exact C1_best_model_truthy_filter_then_min.2.1 [ModelHandle.mk "A" (some 2)]
      (ModelHandle.mk "A" (some 2)) 2 (by decide) rfl (by decide)
  · exact C1_best_model_truthy_filter_then_min.2.2 [ModelHandle.mk "A" (some 2)]
      (ModelHandle.mk "A" (some 2)) (by decide)

/-- C2: over a leaderboard in which no model has a present cross-validation
score, selection fails — `min` over the empty filtered list, the
`NoEligibleModel` condition — and never returns a default model.  This covers
the single-model leaderboard with an absent score and the empty
leaderboard. -/
theorem C2_no_eligible_model (lb : List ModelHandle)
    (h : ∀ m ∈ lb, m.crossValidation = none) : best_model lb = none := by
  unfold best_model
  rw [valid_models_nil lb h]
  rfl

/-- Witness for C2 at the spec's concrete inputs: the one-model leaderboard
with an absent score, and the empty leaderboard. -/
theorem C2_witness :
    best_model [ModelHandle.mk "A" none] = none ∧
    best_model ([] : List ModelHandle) = none :=
  ⟨C2_no_eligible_model [ModelHandle.mk "A" none] (by decide),
   C2_no_eligible_model [] (by decide)⟩

/-- C9, counterexample: models A and B both carry a PRESENT cross-validation
score, tied at the minimal present value 0, and A occurs first — yet the
selection returns C (score 5), because the truthiness filter silently drops
the zero scores.  So "eligible" cannot mean merely "score present". -/
theorem C9_counterexample_present_tie_not_returned :
    (ModelHandle.mk "A" (some 0)).crossValidation.isSome = true ∧
    (ModelHandle.mk "B" (some 0)).crossValidation.isSome = true ∧
    best_model [ModelHandle.mk "A" (some 0), ModelHandle.mk "B" (some 0),
        ModelHandle.mk "C" (some 5)] =
      some (ModelHandle.mk "C" (some 5)) := by decide

/-- C9 (amended): the truthiness filter preserves leaderboard order (the
filtered list is a sublist of the leaderboard), and the minimum is taken
stably over the filtered list: whenever the filtered list splits as
`l₁ ++ m :: l₂` with `m`'s key strictly below every key in `l₁` and at most
every key in `l₂` — in particular when several filtered models tie at the
minimal score and `m` is the earliest — selection returns `m`. -/
theorem C9_stable_min_over_filtered :
    (∀ lb : List ModelHandle, List.Sublist (valid_models lb) lb) ∧
    (∀ (lb l₁ l₂ : List ModelHandle) (m : ModelHandle),
      valid_models lb = l₁ ++ m :: l₂ →
      (∀ x ∈ l₁, cvKey m < cvKey x) →
      (∀ x ∈ l₂, cvKey m ≤ cvKey x) →
      best_model lb = some m) := by
  constructor
  · intro lb; exact List.filter_sublist lb
  · intro lb l₁ l₂ m hsplit h₁ h₂
    unfold best_model
    rw [hsplit]
    exact minByKey_first_min cvKey l₁ l₂ m h₁ h₂

/-- Witness for the amended C9 at a concrete input: B and C tie at the
minimal score 1 behind A's 2, and the earlier of the tied pair, B, is
returned. -/
theorem C9_witness :
    best_model [ModelHandle.mk "A" (some 2), ModelHandle.mk "B" (some 1),
        ModelHandle.mk "C" (some 1)] = some (ModelHandle.mk "B" (some 1)) :=
  C9_stable_min_over_filtered.2
    [ModelHandle.mk "A" (some 2), ModelHandle.mk "B" (some 1),
      ModelHandle.mk "C" (some 1)]
    [ModelHandle.mk "A" (some 2)] [ModelHandle.mk "C" (some 1)]
    (ModelHandle.mk "B" (some 1)) (by decide) (by decide) (by decide)

/-- C10: the constructed `feature_settings` has exactly one entry per input
name, in input order, each flagged known-in-advance, and `time_partition`
attaches exactly this list together with datetime column `Date`, multiseries
identifier column list `[Store]` and `use_time_series = true`. -/
theorem C10_partition_construction :
    feature_settings.map FeatureSettings.feature_name = known_in_advance ∧
    feature_settings.length = known_in_advance.length ∧
    feature_settings.all FeatureSettings.known_in_advance = true ∧
    time_partition.datetime_partition_column = "Date" ∧
    time_partition.multiseries_id_columns = ["Store"] ∧
    time_partition.use_time_series = true ∧
    time_partition.feature_settings = feature_settings := by
  refine ⟨?_, rfl, rfl, rfl, rfl, rfl, rfl⟩
  rfl

/-- C3: for every partitioning specification containing a `FeatureSettings`
that references a column absent from the dataset schema, validation rejects
the specification locally and no network request is issued. -/
theorem C3_missing_column_rejected_before_network
    (schema : List String) (s : DatetimePartitioningSpecification)
    (fs : FeatureSettings) (hmem : fs ∈ s.feature_settings)
    (habs : schema.contains fs.feature_name = false) :
    (submitPartitioning schema s).1.isSome = true ∧
    (submitPartitioning schema s).2 = [] := by
  have hfind : s.feature_settings.find?
      (fun fs => !(schema.contains fs.feature_name)) ≠ none := by
    intro hnone
    have h2 : ¬ (!(schema.contains fs.feature_name)) = true :=
      List.find?_eq_none.mp hnone fs hmem
    rw [habs] at h2
    exact h2 rfl
  rcases hval : s.feature_settings.find?
      (fun fs => !(schema.contains fs.feature_name)) with _ | fs'
  · exact absurd hval hfind
  · have hsub : submitPartitioning schema s =
        (some (ValidationError.missingColumn fs'.feature_name), []) := by
      unfold submitPartitioning validateSpec
      rw [hval]
    rw [hsub]
    exact ⟨rfl, rfl⟩

/-- Witness for C3 at the notebook's own specification: against a schema
lacking the `Marketing` column, `time_partition` is rejected locally and no
request is issued. -/
theorem C3_witness :
    (submitPartitioning ["Date", "Store", "Sales"] time_partition).1.isSome = true ∧
    (submitPartitioning ["Date", "Store", "Sales"] time_partition).2 = [] :=
  C3_missing_column_rejected_before_network ["Date", "Store", "Sales"]
    time_partition (FeatureSettings.mk "Marketing" true) (by decide) (by decide)

/-! ### The interval schedule -/

theorem fibInterval_pos : ∀ n, 1 ≤ fibInterval n := by
  intro n
  induction n using Nat.strong_induction_on with
  | _ n ih =>
    match n with
    | 0 => exact le_refl 1
    | 1 => exact le_refl 1
    | n + 2 =>
      have h := ih n (by omega)
      unfold fibInterval
      omega

theorem fibInterval_le_succ : ∀ n, fibInterval n ≤ fibInterval (n + 1) := by
  intro n
  match n with
  | 0 => exact le_refl 1
  | n + 1 =>
    show fibInterval (n + 1) ≤ fibInterval (n + 2)
    have h := fibInterval_pos n
    have e : fibInterval (n + 2) = fibInterval n + fibInterval (n + 1) := rfl
    omega

theorem fibInterval_mono {m n : Nat} (h : m ≤ n) :
    fibInterval m ≤ fibInterval n := by
  induction n with
  | zero => rw [Nat.le_zero.mp h]
  | succ n ih =>
    rcases Nat.lt_or_ge m (n + 1) with h' | h'
    · exact le_trans (ih (Nat.lt_succ_iff.mp h')) (fibInterval_le_succ n)
    · rw [Nat.le_antisymm h h']

theorem pollInterval_pos (n : Nat) : 1 ≤ pollInterval n := by
  have h := fibInterval_pos n
  unfold pollInterval intervalCap
  omega

theorem pollInterval_le_cap (n : Nat) : pollInterval n ≤ intervalCap :=
  Nat.min_le_right _ _

theorem pollInterval_mono {m n : Nat} (h : m ≤ n) :
    pollInterval m ≤ pollInterval n := by
  have := fibInterval_mono h
  unfold pollInterval
  omega

theorem pollInterval_cap_sticky {m n : Nat} (h : m ≤ n)
    (hc : pollInterval m = intervalCap) : pollInterval n = intervalCap := by
  have h1 := fibInterval_mono h
  have h2 := pollInterval_le_cap n
  unfold pollInterval at hc ⊢
  unfold pollInterval intervalCap at h2
  omega

/-! ### Loop invariants -/

theorem awaitLoop_obs_independent {σ₁ σ₂ : Type} (job : Nat → JobStatus)
    (maxWait : Nat) (cb₁ : Nat → Nat → Nat → σ₁ → σ₁)
    (cb₂ : Nat → Nat → Nat → σ₂ → σ₂) :
    ∀ (fuel : Nat) (st₁ : TrackSt σ₁) (st₂ : TrackSt σ₂),
      obsSt st₁ = obsSt st₂ →
      obs (awaitLoop job maxWait cb₁ fuel st₁) =
        obs (awaitLoop job maxWait cb₂ fuel st₂) := by
  intro fuel
  induction fuel with
  | zero =>
    intro st₁ st₂ h
    obtain ⟨p₁, e₁, sl₁, rq₁, c₁⟩ := st₁
    obtain ⟨p₂, e₂, sl₂, rq₂, c₂⟩ := st₂
    simp only [obsSt, Prod.mk.injEq] at h
    obtain ⟨hp, he, hsl, hrq⟩ := h
    subst hp; subst he; subst hsl; subst hrq
    rfl
  | succ n ih =>
    intro st₁ st₂ h
    obtain ⟨p₁, e₁, sl₁, rq₁, c₁⟩ := st₁
    obtain ⟨p₂, e₂, sl₂, rq₂, c₂⟩ := st₂
    simp only [obsSt, Prod.mk.injEq] at h
    obtain ⟨hp, he, hsl, hrq⟩ := h
    subst hp; subst he; subst hsl; subst hrq
    by_cases hd : maxWait < e₁
    · simp [awaitLoop, hd, obs]
    · cases hjob : job e₁ with
      | completed => simp [awaitLoop, hd, hjob, obs]
      | failed => simp [awaitLoop, hd, hjob, obs]
      | running p q =>
        simp only [awaitLoop, hd, hjob, if_false]
        exact ih _ _ rfl

theorem awaitLoop_no_cancel {σ : Type} (job : Nat → JobStatus) (maxWait : Nat)
    (cb : Nat → Nat → Nat → σ → σ) :
    ∀ (fuel : Nat) (st : TrackSt σ), Req.cancelJob ∉ st.requests →
      Req.cancelJob ∉ (awaitLoop job maxWait cb fuel st).2.requests := by
  intro fuel
  induction fuel with
  | zero => intro st h; exact h
  | succ n ih =>
    intro st h
    have hkeep : Req.cancelJob ∉ st.requests ++ [Req.statusPoll] := by
      intro hmem
      rcases List.mem_append.mp hmem with hmem | hmem
      · exact h hmem
      · simp at hmem
    by_cases hd : maxWait < st.elapsed
    · simp only [awaitLoop, hd, if_true]
      exact h
    · cases hjob : job st.elapsed with
      | completed => simp only [awaitLoop, hd, hjob, if_false]; exact hkeep
      | failed => simp only [awaitLoop, hd, hjob, if_false]; exact hkeep
      | running p q =>
        simp only [awaitLoop, hd, hjob, if_false]
        exact ih _ hkeep

theorem awaitLoop_sleeps_sched {σ : Type} (job : Nat → JobStatus)
    (maxWait : Nat) (cb : Nat → Nat → Nat → σ → σ) :
    ∀ (fuel : Nat) (st : TrackSt σ), schedAligned st.sleeps →
      schedAligned (awaitLoop job maxWait cb fuel st).2.sleeps := by
  intro fuel
  induction fuel with
  | zero => intro st h; exact h
  | succ n ih =>
    intro st h
    by_cases hd : maxWait < st.elapsed
    · simp only [awaitLoop, hd, if_true]
      exact h
    · cases hjob : job st.elapsed with
      | completed => simp only [awaitLoop, hd, hjob, if_false]; exact h
      | failed => simp only [awaitLoop, hd, hjob, if_false]; exact h
      | running p q =>
        simp only [awaitLoop, hd, hjob, if_false]
        refine ih _ ?_
        show schedAligned (st.sleeps ++ [pollInterval st.sleeps.length])
        unfold schedAligned at h ⊢
        rw [List.length_append, List.length_singleton, List.range_succ,
          List.map_append, List.map_singleton, ← h]

theorem schedAligned_pairwise (l : List Nat) (h : schedAligned l) :
    List.Pairwise (fun a b => a ≤ b ∧ (a = intervalCap → b = intervalCap)) l := by
  rw [h]
  refine List.Pairwise.map pollInterval ?_ (List.pairwise_lt_range l.length)
  intro a b hab
  exact ⟨pollInterval_mono (le_of_lt hab),
    fun hc => pollInterval_cap_sticky (le_of_lt hab) hc⟩

theorem schedAligned_le_cap (l : List Nat) (h : schedAligned l) :
    ∀ s ∈ l, s ≤ intervalCap := by
  intro s hs
  rw [h] at hs
  obtain ⟨i, _, hi⟩ := List.mem_map.mp hs
  rw [← hi]
  exact pollInterval_le_cap i

theorem awaitLoop_succ_running {σ : Type} (job : Nat → JobStatus)
    (maxWait : Nat) (cb : Nat → Nat → Nat → σ → σ) (fuel : Nat)
    (st : TrackSt σ) (p q : Nat) (hd : ¬ maxWait < st.elapsed)
    (hjob : job st.elapsed = JobStatus.running p q) :
    awaitLoop job maxWait cb (fuel + 1) st =
      awaitLoop job maxWait cb fuel
        (TrackSt.mk (st.polls + 1) (st.elapsed + pollInterval st.sleeps.length)
          (st.sleeps ++ [pollInterval st.sleeps.length])
          (st.requests ++ [Req.statusPoll]) (cb p q st.elapsed st.cbState)) := by
  conv_lhs => rw [awaitLoop]
  rw [if_neg hd, hjob]

theorem awaitLoop_timeout {σ : Type} (job : Nat → JobStatus) (maxWait : Nat)
    (cb : Nat → Nat → Nat → σ → σ)
    (hrun : ∀ t, t ≤ maxWait → ∃ p q, job t = JobStatus.running p q) :
    ∀ (n : Nat) (st : TrackSt σ), maxWait + 2 ≤ st.elapsed + n + 1 →
      (awaitLoop job maxWait cb (n + 1) st).1 = AwaitResult.timeout := by
  intro n
  induction n with
  | zero =>
    intro st hcond
    by_cases hd : maxWait < st.elapsed
    · simp [awaitLoop, hd]
    · exfalso; omega
  | succ m ih =>
    intro st hcond
    by_cases hd : maxWait < st.elapsed
    · simp [awaitLoop, hd]
    · have hle : st.elapsed ≤ maxWait := Nat.le_of_not_lt hd
      obtain ⟨p, q, hjob⟩ := hrun st.elapsed hle
      rw [awaitLoop_succ_running job maxWait cb (m + 1) st p q hd hjob]
      refine ih _ ?_
      have hpos := pollInterval_pos st.sleeps.length
      show maxWait + 2 ≤ st.elapsed + pollInterval st.sleeps.length + m + 1
      omega

theorem awaitLoop_done {σ : Type} (job : Nat → JobStatus) (maxWait T : Nat)
    (cb : Nat → Nat → Nat → σ → σ)
    (hrun : ∀ t, t < T → ∃ p q, job t = JobStatus.running p q)
    (hdone : ∀ t, T ≤ t → job t = JobStatus.completed)
    (hmw : T + intervalCap ≤ maxWait + 1) :
    ∀ (n : Nat) (st : TrackSt σ), st.elapsed ≤ maxWait → T ≤ st.elapsed + n →
      (awaitLoop job maxWait cb (n + 1) st).1 = AwaitResult.done := by
  intro n
  induction n with
  | zero =>
    intro st hle hT
    have hd : ¬ maxWait < st.elapsed := Nat.not_lt.mpr hle
    have hjob : job st.elapsed = JobStatus.completed := hdone st.elapsed (by omega)
    simp [awaitLoop, hd, hjob]
  | succ m ih =>
    intro st hle hT
    have hd : ¬ maxWait < st.elapsed := Nat.not_lt.mpr hle
    rcases Nat.lt_or_ge st.elapsed T with hlt | hge
    · obtain ⟨p, q, hjob⟩ := hrun st.elapsed hlt
      rw [awaitLoop_succ_running job maxWait cb (m + 1) st p q hd hjob]
      have hpos := pollInterval_pos st.sleeps.length
      have hcap := pollInterval_le_cap st.sleeps.length
      refine ih _ ?_ ?_
      · show st.elapsed + pollInterval st.sleeps.length ≤ maxWait
        omega
      · show T ≤ st.elapsed + pollInterval st.sleeps.length + m
        omega
    · have hjob : job st.elapsed = JobStatus.completed := hdone st.elapsed hge
      simp [awaitLoop, hd, hjob]

/-! ### Claims about the tracker -/

/-- C4: in every execution of the polling loop, for any job, deadline,
callback and number of polls, the sequence of inter-poll sleep intervals is
non-decreasing, every interval is bounded by the fixed cap, and once an
interval equals the cap every later interval still equals it. -/
theorem C4_sleep_intervals_monotone_capped {σ : Type} (job : Nat → JobStatus)
    (maxWait fuel : Nat) (cb : Nat → Nat → Nat → σ → σ) (s0 : σ) :
    List.Pairwise (fun a b => a ≤ b ∧ (a = intervalCap → b = intervalCap))
      (awaitCompletion job maxWait cb fuel s0).2.sleeps ∧
    ∀ s ∈ (awaitCompletion job maxWait cb fuel s0).2.sleeps, s ≤ intervalCap := by
  have h : schedAligned (awaitCompletion job maxWait cb fuel s0).2.sleeps := by
    refine awaitLoop_sleeps_sched job maxWait cb fuel (TrackSt.mk 0 0 [] [] s0) ?_
    show schedAligned []
    rfl
  exact ⟨schedAligned_pairwise _ h, schedAligned_le_cap _ h⟩

/-- Witness for C4: on a 30-poll run against a job that never completes, the
interval 1 actually slept is within the cap. -/
theorem C4_witness : (1 : Nat) ≤ intervalCap :=
  (C4_sleep_intervals_monotone_capped jobNever 100000 30 noProgress ()).2 1
    (by decide)

/-- C6: against the status sequence RUNNING(19,0), RUNNING(19,0),
RUNNING(17,0), COMPLETED, the tracker — for EVERY progress callback, which
therefore has no effect on the transition logic — issues exactly four status
polls (one per state), sleeps [1, 1, 2] in between, and returns the
completed result after the fourth poll; the recording callback is invoked
exactly once per non-terminal poll, three times, with the reported
in-progress and queued counts. -/
theorem C6_simulated_status_sequence {σ : Type} (cb : Nat → Nat → Nat → σ → σ)
    (s0 : σ) :
    obs (awaitCompletion jobC6 3600 cb 10 s0) =
      (AwaitResult.done, 4, 4, [1, 1, 2],
        [Req.statusPoll, Req.statusPoll, Req.statusPoll, Req.statusPoll]) ∧
    (awaitCompletion jobC6 3600 recordProgress 10
        ([] : List (Nat × Nat × Nat))).2.cbState =
      [(19, 0, 0), (19, 0, 1), (17, 0, 2)] := by
  constructor
  · have h := awaitLoop_obs_independent jobC6 3600 cb recordProgress 10
      (TrackSt.mk 0 0 [] [] s0)
      (TrackSt.mk 0 0 [] [] ([] : List (Nat × Nat × Nat))) rfl
    unfold awaitCompletion
    rw [h]
    rfl
  · rfl

/-- Witness for C6 at a concrete callback: the ignoring callback. -/
theorem C6_witness :
    obs (awaitCompletion jobC6 3600 noProgress 10 ()) =
      (AwaitResult.done, 4, 4, [1, 1, 2],
        [Req.statusPoll, Req.statusPoll, Req.statusPoll, Req.statusPoll]) :=
  (C6_simulated_status_sequence noProgress ()).1

/-- C7: for a job that completes only after elapsed time `T` with
`maxWait < T`, the await returns the `AwaitTimeout` (`EXPIRED`) outcome, its
request trace contains no cancellation, and the same job can be re-awaited
with a larger deadline and still observed to reach its terminal state. -/
theorem C7_timeout_no_cancel_reattach (T maxWait : Nat) (job : Nat → JobStatus)
    {σ : Type} (cb : Nat → Nat → Nat → σ → σ) (s0 : σ)
    (hrun : ∀ t, t < T → ∃ p q, job t = JobStatus.running p q)
    (hdone : ∀ t, T ≤ t → job t = JobStatus.completed)
    (hT : maxWait < T) :
    (awaitCompletion job maxWait cb (maxWait + 2) s0).1 = AwaitResult.timeout ∧
    Req.cancelJob ∉ (awaitCompletion job maxWait cb (maxWait + 2) s0).2.requests ∧
    (awaitCompletion job (T + intervalCap) cb (T + 1) s0).1 = AwaitResult.done := by
  refine ⟨?_, ?_, ?_⟩
  · refine awaitLoop_timeout job maxWait cb ?_ (maxWait + 1)
      (TrackSt.mk 0 0 [] [] s0) ?_
    · intro t ht
      exact hrun t (by omega)
    · show maxWait + 2 ≤ 0 + (maxWait + 1) + 1
      omega
  · refine awaitLoop_no_cancel job maxWait cb (maxWait + 2)
      (TrackSt.mk 0 0 [] [] s0) ?_
    intro hmem
    simp at hmem
  · refine awaitLoop_done job (T + intervalCap) T cb hrun hdone (by omega) T
      (TrackSt.mk 0 0 [] [] s0) ?_ ?_
    · show (0 : Nat) ≤ T + intervalCap
      omega
    · show T ≤ 0 + T
      omega

/-- Witness for C7: a job that completes at elapsed time 5, awaited with
deadline 3, times out with no cancellation issued, and a re-await with
deadline 25 observes completion. -/
theorem C7_witness :
    (awaitCompletion jobShort 3 noProgress 5 ()).1 = AwaitResult.timeout ∧
    Req.cancelJob ∉ (awaitCompletion jobShort 3 noProgress 5 ()).2.requests ∧
    (awaitCompletion jobShort (5 + intervalCap) noProgress 6 ()).1 =
      AwaitResult.done :=
  C7_timeout_no_cancel_reattach 5 3 jobShort noProgress ()
    (fun t ht => ⟨1, 0, by simp [jobShort, ht]⟩)
    (fun t ht => by simp [jobShort]; omega)
    (by omega)

/-- C8: a job that is already terminal (COMPLETED or FAILED) at the first
status poll makes the await return after that single poll, with no sleep
performed and no elapsed time accrued. -/
theorem C8_terminal_at_first_poll {σ : Type} (job : Nat → JobStatus)
    (maxWait fuel : Nat) (cb : Nat → Nat → Nat → σ → σ) (s0 : σ)
    (h : job 0 = JobStatus.completed ∨ job 0 = JobStatus.failed) :
    ((awaitCompletion job maxWait cb (fuel + 1) s0).1 = AwaitResult.done ∨
      (awaitCompletion job maxWait cb (fuel + 1) s0).1 = AwaitResult.jobFailed) ∧
    (awaitCompletion job maxWait cb (fuel + 1) s0).2.polls = 1 ∧
    (awaitCompletion job maxWait cb (fuel + 1) s0).2.sleeps = [] ∧
    (awaitCompletion job maxWait cb (fuel + 1) s0).2.elapsed = 0 := by
  have hd : ¬ maxWait < 0 := Nat.not_lt_zero maxWait
  rcases h with h | h
  · refine ⟨Or.inl ?_, ?_, ?_, ?_⟩ <;>
      simp [awaitCompletion, awaitLoop, hd, h]
  · refine ⟨Or.inr ?_, ?_, ?_, ?_⟩ <;>
      simp [awaitCompletion, awaitLoop, hd, h]

/-- Witness for C8: a job already COMPLETED at the first poll. -/
theorem C8_witness :
    ((awaitCompletion (fun _ => JobStatus.completed) 3600 noProgress 1 ()).1 =
        AwaitResult.done ∨
      (awaitCompletion (fun _ => JobStatus.completed) 3600 noProgress 1 ()).1 =
        AwaitResult.jobFailed) ∧
    (awaitCompletion (fun _ => JobStatus.completed) 3600 noProgress 1 ()).2.polls = 1 ∧
    (awaitCompletion (fun _ => JobStatus.completed) 3600 noProgress 1 ()).2.sleeps = [] ∧
    (awaitCompletion (fun _ => JobStatus.completed) 3600 noProgress 1 ()).2.elapsed = 0 :=
  C8_terminal_at_first_poll (fun _ => JobStatus.completed) 3600 0 noProgress ()
    (Or.inl rfl)

/-- C5: every row of a materialized prediction result set satisfies
`timestamp = forecast_point + forecast_distance` periods with
`forecast_distance ≥ 1`; and on the transcript's data — forecast point
2014-06-14, one-day period, the five head rows — the forecast distances are
1..5 and the timestamps are exactly the day numbers of 2014-06-15 through
2014-06-19. -/
theorem C5_timestamp_roundtrip :
    (∀ (fp period rowStart : Nat) (series : String) (preds : List ℚ)
      (row : PredictionRow), row ∈ materializeForecast fp period series rowStart preds →
      row.timestamp = row.forecast_point + row.forecast_distance * period ∧
      1 ≤ row.forecast_distance) ∧
    (materializeForecast (daysFromCivil 2014 6 14) 1 "Louisville" 714
        transcriptPreds).map PredictionRow.timestamp =
      [daysFromCivil 2014 6 15, daysFromCivil 2014 6 16, daysFromCivil 2014 6 17,
       daysFromCivil 2014 6 18, daysFromCivil 2014 6 19] ∧
    (materializeForecast (daysFromCivil 2014 6 14) 1 "Louisville" 714
        transcriptPreds).map PredictionRow.forecast_distance = [1, 2, 3, 4, 5] := by
  refine ⟨?_, by decide, by decide⟩
  intro fp period rowStart series preds row hrow
  unfold materializeForecast at hrow
  obtain ⟨ip, _, hip⟩ := List.mem_map.mp hrow
  rw [← hip]
  exact ⟨rfl, Nat.le_add_left 1 ip.1⟩

/-- Witness for C5: the first transcript row (distance 1, row 714, series
Louisville) belongs to the materialized result set and satisfies the
round-trip. -/
theorem C5_witness :
    transcriptHeadRow.timestamp =
      transcriptHeadRow.forecast_point + transcriptHeadRow.forecast_distance * 1 :=
  (C5_timestamp_roundtrip.1 (daysFromCivil 2014 6 14) 1 714 "Louisville"
    transcriptPreds transcriptHeadRow (by decide)).1

end DR
